import Mathlib

/-!
Shallow embedding of the hopper_valuation valuation-and-pricing engine.

Sources embedded here:
- `src/hopper_backend/services/valuation/models/pe.py` (PEBasedModel.calculate)
- `src/hopper_backend/services/valuation/models/ev_ebitda.py` (EVEBITDAModel.calculate)
- `src/hopper_backend/services/valuation/service.py` lines 148-170
  (the model-combination step of ValuationService.calculate_intrinsic_value) and
  `src/algorithms/pricing.py` lines 273-289 (the same combination step of
  weighted_valuation, with fixed weights 0.5/0.3/0.2)
- `src/algorithms/pricing.py` lines 409-454 (char_function_fft) and
  `src/qualtrim_backend/services/analytics/fft/service.py` lines 115-174
  (_char_function_fft); the two differ only in the sign inside the final
  normal-CDF call.

Plain Python float arithmetic on the valuation side is modelled over the
rationals; the option pricer, which uses log, exp, sqrt, the FFT and the
standard normal CDF, is modelled over the reals.  Python exceptions are
modelled with `Except`; the only statement in the embedded code that can raise
is the pure-float division `S0/K` inside `char_function_fft`, which raises
`ZeroDivisionError` when `K == 0` (all other divisions have numpy operands and
produce inf/nan without raising).
-/

namespace HopperValuation

/-- Result record of `PEBasedModel.calculate` (pe.py): the fields `target_pe`
and `fair_value`, which are `None` on invalid input. -/
structure PEResult where
  target_pe : Option ℚ
  fair_value : Option ℚ
  deriving DecidableEq

/-- Embedding of `PEBasedModel.calculate` (pe.py lines 14-94).  Defaults at the
call sites: `peg = 1.0`, `years = 5`, `discount_rate = 0.10`.  The guard is
`eps <= 0 or years <= 0 or discount_rate <= 0`; `years` is a nonnegative int at
every call site, so `years = 0` models `years <= 0`. -/
def PEBasedModel.calculate (eps growth_rate : ℚ) (industry_pe : Option ℚ)
    (peg : ℚ) (years : ℕ) (discount_rate : ℚ) : PEResult :=
  if eps ≤ 0 ∨ years = 0 ∨ discount_rate ≤ 0 then ⟨none, none⟩
  else
    let growth_percent := growth_rate * 100
    let calculated_pe := max (min (growth_percent * peg) 50) 5
    let terminal_pe :=
      match industry_pe with
      | some ip => if 0 < ip then ip else calculated_pe
      | none => calculated_pe
    let future_eps := eps * (1 + growth_rate) ^ years
    let future_value := future_eps * terminal_pe
    let fair_value := future_value / (1 + discount_rate) ^ years
    ⟨some terminal_pe, some fair_value⟩

/-- Result record of `EVEBITDAModel.calculate` (ev_ebitda.py). -/
structure EVEBITDAResult where
  ev_ebitda_multiple : Option ℚ
  enterprise_value : ℚ
  equity_value : ℚ
  per_share_value : ℚ
  deriving DecidableEq

/-- Embedding of `EVEBITDAModel.calculate` (ev_ebitda.py lines 14-88). -/
def EVEBITDAModel.calculate (ebitda growth_rate : ℚ) (industry_multiple : Option ℚ)
    (net_debt shares_outstanding : ℚ) : EVEBITDAResult :=
  if ebitda ≤ 0 ∨ shares_outstanding ≤ 0 then ⟨none, 0, 0, 0⟩
  else
    let growth_percent := growth_rate * 100
    let target_multiple0 := 6 + growth_percent / 10 * 10
    let target_multiple1 := max (min target_multiple0 25) 4
    let target_multiple :=
      match industry_multiple with
      | some im => if 0 < im then target_multiple1 * (7/10) + im * (3/10) else target_multiple1
      | none => target_multiple1
    let enterprise_value := ebitda * target_multiple
    let equity_value := enterprise_value - net_debt
    ⟨some target_multiple, enterprise_value, equity_value, equity_value / shares_outstanding⟩

/-- Error taxonomy named by the spec for the valuation combiner.  The source
never constructs it: it is declared so the spec's claimed failure mode is
expressible. -/
inductive ValuationError
  | invalidInput
  deriving DecidableEq

/-- Weight map used by the combiner: service.py reads keys dcf / pe /
ev_ebitda; pricing.py hard-codes 0.5 / 0.3 / 0.2. -/
structure CombinerWeights where
  dcf : ℚ
  pe : ℚ
  ev_ebitda : ℚ
  deriving DecidableEq

/-- Default weights of ValuationService (service.py lines 41-46; the
"historical" entry of that dict is never read by the combination loop). -/
def serviceWeights : CombinerWeights := ⟨3/10, 1/5, 1/5⟩

/-- Fixed weights of weighted_valuation (pricing.py lines 277-284). -/
def pricingWeights : CombinerWeights := ⟨1/2, 3/10, 1/5⟩

/-- Contribution of one optional model value to the accumulators
`(weighted_value, total_weight)`: the model is included only when its value is
present and strictly positive (service.py lines 159-165, pricing.py 279-284). -/
def optSlot (o : Option ℚ) (wt : ℚ) : ℚ × ℚ :=
  match o with
  | some v => if 0 < v then (v * wt, wt) else (0, 0)
  | none => (0, 0)

/-- Embedding of the model-combination step shared by
`ValuationService.calculate_intrinsic_value` (service.py lines 148-170) and
`weighted_valuation` (pricing.py lines 273-289): accumulate
`weighted_value`/`total_weight` over the models with positive value, then
divide, else return 0.  The Python code on this path cannot raise, so the
result is always `Except.ok`. -/
def calculate_intrinsic_value_combine (dcf_per_share : ℚ)
    (pe_fair_value ev_per_share : Option ℚ) (w : CombinerWeights) :
    Except ValuationError ℚ :=
  let s1 := if 0 < dcf_per_share then (dcf_per_share * w.dcf, w.dcf) else ((0:ℚ), (0:ℚ))
  let s2 := optSlot pe_fair_value w.pe
  let s3 := optSlot ev_per_share w.ev_ebitda
  let weighted_value := s1.1 + s2.1 + s3.1
  let total_weight := s1.2 + s2.2 + s3.2
  Except.ok (if 0 < total_weight then weighted_value / total_weight else 0)

/-- Target P/E as the spec's sentence for claim C6 reads: growthRate*100*peg
clamped to [5, 50], then blended 70/30 with the industry P/E when one is
supplied.  (Comparison definition written from the claim's words, not from the
source.) -/
def claimedPETargetPE (growth_rate : ℚ) (industry_pe : Option ℚ) (peg : ℚ) : ℚ :=
  let base := max (min (growth_rate * 100 * peg) 50) 5
  match industry_pe with
  | some ip => base * (7/10) + ip * (3/10)
  | none => base

/-- Terminal P/E actually used by pe.py: the industry P/E replaces the
calculated one when supplied and positive, else growthRate*100*peg clamped to
[5, 50]. -/
def peTerminalPE (growth_rate : ℚ) (industry_pe : Option ℚ) (peg : ℚ) : ℚ :=
  match industry_pe with
  | some ip => if 0 < ip then ip else max (min (growth_rate * 100 * peg) 50) 5
  | none => max (min (growth_rate * 100 * peg) 50) 5

/-- Argument record of `char_function_fft` (pricing.py line 409) and
`_char_function_fft` (service.py line 115). -/
structure OptionInputs where
  S0 : ℝ
  K : ℝ
  T : ℝ
  r : ℝ
  mu : ℝ
  q : ℝ
  sigma : ℝ
  use_real_world : Bool

noncomputable section

/-- Line 423 of pricing.py: `drift = mu if use_real_world else r`. -/
def drift (p : OptionInputs) : ℝ :=
  if p.use_real_world then p.mu else p.r

/-- FFT grid size `N = 2**12` (pricing.py line 426). -/
def nGrid : ℕ := 4096

/-- Damping factor `alpha = 1.5` (pricing.py line 427). -/
def alphaDamp : ℝ := 1.5

/-- Frequency grid spacing `eta = 0.25` (pricing.py line 428). -/
def etaSpacing : ℝ := 0.25

/-- Log-strike spacing `lambda_ = 2*pi/(N*eta)` (pricing.py line 429). -/
def lambda_ : ℝ := 2 * Real.pi / (nGrid * etaSpacing)

/-- Log-strike grid `k = np.arange(-N/2, N/2) * lambda_`: entry of index `j`
(0-based) has value `(j - N/2) * lambda_` (pricing.py line 432). -/
def kGrid (j : ℕ) : ℝ := ((j : ℝ) - (nGrid : ℝ) / 2) * lambda_

/-- Frequency grid `v = np.arange(-N/2, N/2) * eta` (pricing.py line 433). -/
def vGrid (n : ℕ) : ℝ := ((n : ℝ) - (nGrid : ℝ) / 2) * etaSpacing

/-- Characteristic function of log terminal price (pricing.py lines 436-438):
`exp(1j*v*(log(S0) + (drift - q - 0.5*sigma^2)*T) - 0.5*sigma^2*T*v^2)`. -/
def char_func (p : OptionInputs) (v : ℝ) : ℂ :=
  Complex.exp (Complex.I * v * (Real.log p.S0 + (drift p - p.q - p.sigma ^ 2 / 2) * p.T)
    - (p.sigma ^ 2 * p.T * v ^ 2) / 2)

/-- Entry `j` of `fft(char_values * np.exp(-1j * v * np.log(K)))` with the
scipy convention `X[j] = sum_n x[n] * exp(-2*pi*1j*j*n/N)` (pricing.py
line 444). -/
def fftOut (p : OptionInputs) (j : ℕ) : ℂ :=
  ∑ n ∈ Finset.range nGrid,
    char_func p (vGrid n) * Complex.exp (-Complex.I * (vGrid n) * Real.log p.K)
      * Complex.exp (-2 * Real.pi * Complex.I * (j : ℂ) * (n : ℂ) / (nGrid : ℂ))

/-- Entry `j` of `damped_char = np.exp(-alpha*k) * np.real(fft(...))`
(pricing.py line 444). -/
def damped_char (p : OptionInputs) (j : ℕ) : ℝ :=
  Real.exp (-alphaDamp * kGrid j) * (fftOut p j).re

/-- Call price `damped_char[N//2] / pi` (pricing.py line 447). -/
def call_price (p : OptionInputs) : ℝ :=
  damped_char p (nGrid / 2) / Real.pi

/-- Put price via parity at the risk-free rate `r` (pricing.py line 448):
`call_price - S0*exp(-q*T) + K*exp(-r*T)`.  Both variants use `r` here, not
`drift`. -/
def put_price (p : OptionInputs) : ℝ :=
  call_price p - p.S0 * Real.exp (-p.q * p.T) + p.K * Real.exp (-p.r * p.T)

/-- Standard normal CDF, the semantics of `scipy.stats.norm.cdf`. -/
def norm_cdf (x : ℝ) : ℝ :=
  (Real.sqrt (2 * Real.pi))⁻¹ * ∫ t in Set.Iic x, Real.exp (-t ^ 2 / 2)

/-- The quantity `d1 = (log(S0/K) + (drift - q + 0.5*sigma^2)*T)/(sigma*sqrt(T))`
(pricing.py line 451, service.py line 171 — identical in both variants). -/
def d1 (p : OptionInputs) : ℝ :=
  (Real.log (p.S0 / p.K) + (drift p - p.q + p.sigma ^ 2 / 2) * p.T)
    / (p.sigma * Real.sqrt p.T)

/-- The value `prob_ST_above_K = 1 - norm.cdf(d1)` returned by pricing.py
(line 452). -/
def prob_ST_above_K (p : OptionInputs) : ℝ := 1 - norm_cdf (d1 p)

/-- The value `prob_ST_above_K = 1 - norm.cdf(-d1)` returned by the qualtrim
variant (service.py line 172). -/
def prob_ST_above_K_qualtrim (p : OptionInputs) : ℝ := 1 - norm_cdf (-d1 p)

/-- The numeric triple returned by `char_function_fft` / `_char_function_fft`
(pricing.py additionally returns the grids `k` and `damped_char`, i.e.
`kGrid` and `damped_char` above). -/
structure PricingOutput where
  call_price : ℝ
  put_price : ℝ
  prob_ST_above_K : ℝ

/-- The exception `char_function_fft` can actually raise, plus the error the
spec claims for invalid parameters (never constructed by the source). -/
inductive PyError
  | zeroDivision
  | invalidParameter
  deriving DecidableEq

/-- The output record of `char_function_fft` on the non-raising path. -/
def pricingResult (p : OptionInputs) : PricingOutput :=
  ⟨call_price p, put_price p, prob_ST_above_K p⟩

/-- Embedding of `char_function_fft` (pricing.py lines 409-454) as a fallible
function.  The body performs no parameter validation; the only statement that
can raise is the pure-Python float division `S0/K` inside the `d1` expression
(line 451), which raises ZeroDivisionError when `K == 0` — every other
division has a numpy operand and yields inf/nan without raising.  Values at
such degenerate inputs are modelled by Lean's total real functions. -/
def char_function_fft (p : OptionInputs) : Except PyError PricingOutput :=
  if p.K = 0 then Except.error PyError.zeroDivision
  else Except.ok (pricingResult p)

/-- Concrete scenario B of the spec: `S0=100, K=100, T=1, sigma=0.0001, r=0.05,
q=0`, risk-neutral mode (`mu` is passed but unused when `use_real_world` is
false). -/
def scenarioB : OptionInputs :=
  ⟨100, 100, 1, 1/20, 1/20, 0, 1/10000, false⟩

/-- An input with `sigma = -1 <= 0` and all other parameters valid. -/
def inputSigmaNeg : OptionInputs :=
  ⟨100, 100, 1, 1/20, 1/20, 0, -1, false⟩

/-- An input with `T = 0` and all other parameters valid. -/
def inputTZero : OptionInputs :=
  ⟨100, 100, 0, 1/20, 1/20, 0, 1/5, false⟩

/-- An input with `K = 0`. -/
def inputKZero : OptionInputs :=
  ⟨100, 0, 1, 1/20, 1/20, 0, 1/5, false⟩

/-- A valid input in real-world drift mode (`mu = 0.08`, `q = 0.01`). -/
def inputRW : OptionInputs :=
  ⟨100, 90, 2, 1/20, 2/25, 1/100, 3/10, true⟩

end

/-! Lemmas about the standard normal CDF. -/

open MeasureTheory in
lemma gaussFun_eq :
    (fun t : ℝ => Real.exp (-t ^ 2 / 2)) = fun t : ℝ => Real.exp (-(1/2 : ℝ) * t ^ 2) := by
  funext t
  congr 1
  ring

open MeasureTheory in
lemma gaussIntegrable : Integrable (fun t : ℝ => Real.exp (-t ^ 2 / 2)) := by
  rw [gaussFun_eq]
  exact integrable_exp_neg_mul_sq (by norm_num)

open MeasureTheory in
lemma gaussTotal : ∫ t : ℝ, Real.exp (-t ^ 2 / 2) = Real.sqrt (2 * Real.pi) := by
  rw [gaussFun_eq, integral_gaussian]
  congr 1
  rw [eq_comm]
  field_simp
  ring

open MeasureTheory in
lemma gaussIic_neg (x : ℝ) :
    (∫ t in Set.Iic (-x), Real.exp (-t ^ 2 / 2))
      = ∫ t in Set.Ioi x, Real.exp (-t ^ 2 / 2) := by
  have h := integral_comp_neg_Iic (-x) (fun t : ℝ => Real.exp (-t ^ 2 / 2))
  rw [neg_neg] at h
  rw [← h]
  refine MeasureTheory.setIntegral_congr_fun measurableSet_Iic fun t _ => ?_
  rw [neg_sq]

open MeasureTheory in
lemma gaussSplit (x : ℝ) :
    (∫ t in Set.Iic x, Real.exp (-t ^ 2 / 2))
      + (∫ t in Set.Ioi x, Real.exp (-t ^ 2 / 2)) = Real.sqrt (2 * Real.pi) := by
  have h := MeasureTheory.integral_add_compl (measurableSet_Iic (a := x)) gaussIntegrable
  rw [Set.compl_Iic] at h
  exact h.trans gaussTotal

lemma sqrt2pi_pos : 0 < Real.sqrt (2 * Real.pi) :=
  Real.sqrt_pos.mpr (by positivity)

lemma norm_cdf_zero : norm_cdf 0 = 1/2 := by
  have h1 : (∫ t in Set.Iic (0:ℝ), Real.exp (-t ^ 2 / 2))
      = ∫ t in Set.Ioi (0:ℝ), Real.exp (-t ^ 2 / 2) := by
    simpa using gaussIic_neg 0
  have h2 := gaussSplit 0
  rw [← h1] at h2
  have hne : Real.sqrt (2 * Real.pi) ≠ 0 := ne_of_gt sqrt2pi_pos
  unfold norm_cdf
  rw [show (∫ t in Set.Iic (0:ℝ), Real.exp (-t ^ 2 / 2)) = Real.sqrt (2 * Real.pi) / 2
    by linarith]
  field_simp

lemma norm_cdf_neg (x : ℝ) : norm_cdf (-x) = 1 - norm_cdf x := by
  have h2 := gaussSplit x
  have hne : Real.sqrt (2 * Real.pi) ≠ 0 := ne_of_gt sqrt2pi_pos
  unfold norm_cdf
  rw [gaussIic_neg x]
  have key : (Real.sqrt (2 * Real.pi))⁻¹ * (∫ t in Set.Iic x, Real.exp (-t ^ 2 / 2))
      + (Real.sqrt (2 * Real.pi))⁻¹ * (∫ t in Set.Ioi x, Real.exp (-t ^ 2 / 2)) = 1 := by
    rw [← mul_add, h2, inv_mul_cancel₀ hne]
  linarith

open MeasureTheory in
lemma norm_cdf_mono {a b : ℝ} (hab : a ≤ b) : norm_cdf a ≤ norm_cdf b := by
  unfold norm_cdf
  refine mul_le_mul_of_nonneg_left ?_ (inv_nonneg.mpr sqrt2pi_pos.le)
  exact setIntegral_mono_set gaussIntegrable.integrableOn
    (Filter.Eventually.of_forall fun t => (Real.exp_pos _).le)
    ((Set.Iic_subset_Iic.mpr hab).eventuallyLE)

open MeasureTheory in
lemma norm_cdf_zero_lt {x : ℝ} (hx : 0 < x) : norm_cdf 0 < norm_cdf x := by
  unfold norm_cdf
  refine mul_lt_mul_of_pos_left ?_ (inv_pos.mpr sqrt2pi_pos)
  have hu : Set.Iic (0:ℝ) ∪ Set.Ioc 0 x = Set.Iic x := Set.Iic_union_Ioc_eq_Iic hx.le
  have hdisj : Disjoint (Set.Iic (0:ℝ)) (Set.Ioc 0 x) :=
    (Set.Iic_disjoint_Ioi le_rfl).mono_right Set.Ioc_subset_Ioi_self
  have hsum : (∫ t in Set.Iic (0:ℝ), Real.exp (-t ^ 2 / 2))
      + (∫ t in Set.Ioc (0:ℝ) x, Real.exp (-t ^ 2 / 2))
      = ∫ t in Set.Iic x, Real.exp (-t ^ 2 / 2) := by
    rw [← hu] at *
    exact (setIntegral_union hdisj measurableSet_Ioc gaussIntegrable.integrableOn
      gaussIntegrable.integrableOn).symm
  have hvol : (volume (Set.Ioc (0:ℝ) x)).toReal = x := by
    rw [Real.volume_Ioc, ENNReal.toReal_ofReal (by linarith)]
    ring
  have hge := setIntegral_ge_of_const_le (c := Real.exp (-x ^ 2 / 2))
    (measurableSet_Ioc (a := (0:ℝ)) (b := x))
    (by rw [Real.volume_Ioc]; exact ENNReal.ofReal_ne_top)
    (fun t ht => Real.exp_le_exp.mpr (by nlinarith [ht.1, ht.2]))
    gaussIntegrable.integrableOn
  rw [hvol] at hge
  have hcx : 0 < Real.exp (-x ^ 2 / 2) * x := mul_pos (Real.exp_pos _) hx
  linarith

lemma d1_scenarioB_pos : 0 < d1 scenarioB := by
  simp only [d1, drift, scenarioB]
  norm_num [Real.sqrt_one, Real.log_one]

/-- Claim C1: for every valid option input, in either drift mode, the call and
put prices returned by `char_function_fft` satisfy put-call parity discounted
at the risk-free rate exactly (hence within any floating tolerance):
`call_price - put_price = S0*exp(-q*T) - K*exp(-r*T)`, with `r` used
regardless of the drift mode. -/
theorem put_call_parity (p : OptionInputs) (hS : 0 < p.S0) (hK : 0 < p.K)
    (hT : 0 < p.T) (hsig : 0 < p.sigma) (hq : 0 ≤ p.q) :
    char_function_fft p = Except.ok (pricingResult p) ∧
    (pricingResult p).call_price - (pricingResult p).put_price
      = p.S0 * Real.exp (-p.q * p.T) - p.K * Real.exp (-p.r * p.T) := by
  constructor
  · unfold char_function_fft
    rw [if_neg (ne_of_gt hK)]
  · show call_price p - put_price p = _
    unfold put_price
    ring

/-- Claim C1 witness: put-call parity instantiated at the concrete real-world
mode input `inputRW`. -/
theorem put_call_parity_witness :
    char_function_fft inputRW = Except.ok (pricingResult inputRW) ∧
    (pricingResult inputRW).call_price - (pricingResult inputRW).put_price
      = inputRW.S0 * Real.exp (-inputRW.q * inputRW.T)
        - inputRW.K * Real.exp (-inputRW.r * inputRW.T) :=
  put_call_parity inputRW (by norm_num [inputRW]) (by norm_num [inputRW])
    (by norm_num [inputRW]) (by norm_num [inputRW]) (by norm_num [inputRW])

/-- Claim C2: at the spec's scenario B (`S0=100, K=100, T=1, sigma=0.0001,
r=0.05, q=0`, risk-neutral), `char_function_fft` returns without error, but
its `prob_ST_above_K` is at most 1/2 — the scenario expects a probability of
about 1.0, so the code diverges from the claim at this input. -/
theorem scenarioB_prob_not_one :
    char_function_fft scenarioB = Except.ok (pricingResult scenarioB) ∧
    (pricingResult scenarioB).prob_ST_above_K < 1/2 := by
  constructor
  · have h : scenarioB.K ≠ 0 := by norm_num [scenarioB]
    unfold char_function_fft
    rw [if_neg h]
  · show prob_ST_above_K scenarioB < 1/2
    unfold prob_ST_above_K
    have h := norm_cdf_zero_lt d1_scenarioB_pos
    rw [norm_cdf_zero] at h
    linarith

/-- Claim C3: at scenario B the value returned by pricing.py,
`1 - norm_cdf (d1)`, is strictly below the claimed closed form
`norm_cdf (d1)`, while the qualtrim variant `1 - norm_cdf (-d1)` equals it:
pricing.py line 452 flips the sign of the argument of the normal CDF. -/
theorem prob_formula_divergence :
    prob_ST_above_K scenarioB < norm_cdf (d1 scenarioB) ∧
    prob_ST_above_K_qualtrim scenarioB = norm_cdf (d1 scenarioB) := by
  constructor
  · unfold prob_ST_above_K
    have h := norm_cdf_zero_lt d1_scenarioB_pos
    rw [norm_cdf_zero] at h
    linarith
  · unfold prob_ST_above_K_qualtrim
    rw [norm_cdf_neg]
    ring

/-- Claim C8 counterexample: with `sigma = -1` (and every other parameter
valid) `char_function_fft` returns a result instead of raising
`InvalidParameterError`; with `K = 0` it raises `ZeroDivisionError` — from the
float division `S0/K` — not `InvalidParameterError`. -/
theorem no_validation_counterexample :
    char_function_fft inputSigmaNeg = Except.ok (pricingResult inputSigmaNeg) ∧
    char_function_fft inputKZero = Except.error PyError.zeroDivision := by
  constructor
  · have h : inputSigmaNeg.K ≠ 0 := by norm_num [inputSigmaNeg]
    unfold char_function_fft
    rw [if_neg h]
  · have h : inputKZero.K = 0 := by norm_num [inputKZero]
    unfold char_function_fft
    rw [if_pos h]

/-- Claim C8 amended: `char_function_fft` performs no parameter validation at
all: whenever `K` is nonzero it returns a (possibly meaningless) numeric
result — including for `sigma <= 0`, `T <= 0` or `K < 0` — and for `K = 0` it
raises `ZeroDivisionError` from the float division `S0/K`; no
`InvalidParameterError` exists in the source. -/
theorem no_parameter_validation (p : OptionInputs) :
    (p.K ≠ 0 → char_function_fft p = Except.ok (pricingResult p)) ∧
    (p.K = 0 → char_function_fft p = Except.error PyError.zeroDivision) := by
  constructor <;> intro h <;> unfold char_function_fft
  · rw [if_neg h]
  · rw [if_pos h]

/-- Claim C8 witness: the amended theorem applied at the concrete input with
`T = 0`, which returns a result rather than raising. -/
theorem no_parameter_validation_witness :
    char_function_fft inputTZero = Except.ok (pricingResult inputTZero) :=
  (no_parameter_validation inputTZero).1 (by norm_num [inputTZero])

/-! Lemmas about the combiner. -/

lemma slot_cases (o : Option ℚ) (wt : ℚ) :
    optSlot o wt = (0, 0) ∨ ∃ v, o = some v ∧ 0 < v ∧ optSlot o wt = (v * wt, wt) := by
  rcases o with _ | v
  · exact Or.inl rfl
  · by_cases hv : 0 < v
    · exact Or.inr ⟨v, rfl, hv, by simp [optSlot, hv]⟩
    · exact Or.inl (by simp [optSlot, hv])

lemma wavg_bounds (a1 b1 a2 b2 a3 b3 lo hi : ℚ)
    (h1 : a1 = 0 ∧ b1 = 0 ∨ 0 < b1 ∧ lo * b1 ≤ a1 ∧ a1 ≤ hi * b1)
    (h2 : a2 = 0 ∧ b2 = 0 ∨ 0 < b2 ∧ lo * b2 ≤ a2 ∧ a2 ≤ hi * b2)
    (h3 : a3 = 0 ∧ b3 = 0 ∨ 0 < b3 ∧ lo * b3 ≤ a3 ∧ a3 ≤ hi * b3)
    (hone : 0 < b1 ∨ 0 < b2 ∨ 0 < b3) :
    0 < b1 + b2 + b3 ∧ lo ≤ (a1 + a2 + a3) / (b1 + b2 + b3)
      ∧ (a1 + a2 + a3) / (b1 + b2 + b3) ≤ hi := by
  have e1 : lo * b1 ≤ a1 ∧ a1 ≤ hi * b1 ∧ 0 ≤ b1 := by
    rcases h1 with ⟨ha, hb⟩ | ⟨hb, hl, hu⟩
    · subst ha; subst hb; simp
    · exact ⟨hl, hu, hb.le⟩
  have e2 : lo * b2 ≤ a2 ∧ a2 ≤ hi * b2 ∧ 0 ≤ b2 := by
    rcases h2 with ⟨ha, hb⟩ | ⟨hb, hl, hu⟩
    · subst ha; subst hb; simp
    · exact ⟨hl, hu, hb.le⟩
  have e3 : lo * b3 ≤ a3 ∧ a3 ≤ hi * b3 ∧ 0 ≤ b3 := by
    rcases h3 with ⟨ha, hb⟩ | ⟨hb, hl, hu⟩
    · subst ha; subst hb; simp
    · exact ⟨hl, hu, hb.le⟩
  have hB : 0 < b1 + b2 + b3 := by
    rcases hone with h | h | h <;> linarith [e1.2.2, e2.2.2, e3.2.2]
  refine ⟨hB, ?_, ?_⟩
  · rw [le_div_iff hB]
    have hexp : lo * (b1 + b2 + b3) = lo * b1 + lo * b2 + lo * b3 := by ring
    linarith [e1.1, e2.1, e3.1]
  · rw [div_le_iff hB]
    have hexp : hi * (b1 + b2 + b3) = hi * b1 + hi * b2 + hi * b3 := by ring
    linarith [e1.2.1, e2.2.1, e3.2.1]

lemma combine_eq (dv : ℚ) (p e : Option ℚ) (w : CombinerWeights) :
    calculate_intrinsic_value_combine dv p e w =
      Except.ok (
        if 0 < (if 0 < dv then (dv * w.dcf, w.dcf) else ((0:ℚ), (0:ℚ))).2
            + (optSlot p w.pe).2 + (optSlot e w.ev_ebitda).2
        then ((if 0 < dv then (dv * w.dcf, w.dcf) else ((0:ℚ), (0:ℚ))).1
            + (optSlot p w.pe).1 + (optSlot e w.ev_ebitda).1)
          / ((if 0 < dv then (dv * w.dcf, w.dcf) else ((0:ℚ), (0:ℚ))).2
            + (optSlot p w.pe).2 + (optSlot e w.ev_ebitda).2)
        else 0) := rfl

/-- Claim C4 counterexample: with all three models invalid (DCF per-share 0,
P/E fair value None, EV/EBITDA per-share 0) the combiner returns intrinsic
value 0 instead of raising `InvalidInputError`. -/
theorem all_invalid_counterexample :
    calculate_intrinsic_value_combine 0 none (some 0) serviceWeights = Except.ok 0 ∧
    calculate_intrinsic_value_combine 0 none (some 0) serviceWeights
      ≠ Except.error ValuationError.invalidInput := by
  have h0 : calculate_intrinsic_value_combine 0 none (some 0) serviceWeights
      = Except.ok 0 := by
    simp [calculate_intrinsic_value_combine, optSlot]
  exact ⟨h0, by rw [h0]; intro h; exact Except.noConfusion h⟩

/-- Claim C4 amended: if no model qualifies (the DCF per-share value is not
positive and the optional P/E and EV/EBITDA values are absent or not
positive), the combiner silently returns `Except.ok 0`; no exception is
raised. -/
theorem all_invalid_returns_zero (dv : ℚ) (p e : Option ℚ) (w : CombinerWeights)
    (hd : ¬ 0 < dv) (hp : ∀ v, p = some v → ¬ 0 < v) (he : ∀ v, e = some v → ¬ 0 < v) :
    calculate_intrinsic_value_combine dv p e w = Except.ok 0 := by
  rcases p with _ | vp <;> rcases e with _ | ve
  · simp [calculate_intrinsic_value_combine, optSlot, hd]
  · simp [calculate_intrinsic_value_combine, optSlot, hd, he ve rfl]
  · simp [calculate_intrinsic_value_combine, optSlot, hd, hp vp rfl]
  · simp [calculate_intrinsic_value_combine, optSlot, hd, hp vp rfl, he ve rfl]

/-- Claim C4 witness: the amended theorem applied at a concrete all-invalid
input. -/
theorem all_invalid_returns_zero_witness :
    calculate_intrinsic_value_combine (-3) (some 0) none pricingWeights = Except.ok 0 :=
  all_invalid_returns_zero (-3) (some 0) none pricingWeights (by norm_num)
    (by intro v hv; injection hv with h; rw [← h]; norm_num)
    (fun v hv => nomatch hv)

/-- Claim C5 counterexample: for a computed intrinsic value of 500 (DCF-only),
the combiner does not report the claimed clamped value 150. -/
theorem no_clamp_counterexample :
    calculate_intrinsic_value_combine 500 none none pricingWeights ≠ Except.ok 150 := by
  intro h
  have h500 : calculate_intrinsic_value_combine 500 none none pricingWeights
      = Except.ok 500 := by
    norm_num [calculate_intrinsic_value_combine, optSlot, pricingWeights]
  rw [h500] at h
  have := Except.ok.inj h
  norm_num at this

/-- Claim C5 amended: the combiner applies no sanity clamp and tracks no
clamped flag: with a computed intrinsic value of 500 it reports 500 as-is,
even though 500 lies outside the band `[100*(1-0.5), 100*(1+0.5)]` around a
current price of 100. -/
theorem no_clamp_value_passes_through :
    calculate_intrinsic_value_combine 500 none none pricingWeights = Except.ok 500 ∧
    ¬ (500 : ℚ) ≤ 100 * (1 + 1/2) := by
  constructor
  · norm_num [calculate_intrinsic_value_combine, optSlot, pricingWeights]
  · norm_num

/-- Claim C9: if only the DCF model is valid (the P/E and EV/EBITDA results
are absent or not positive) and the DCF weight is positive, renormalization
makes the combined intrinsic value equal the DCF per-share value exactly. -/
theorem dcf_only_renormalization (dv : ℚ) (p e : Option ℚ) (w : CombinerWeights)
    (hd : 0 < dv) (hw : 0 < w.dcf)
    (hp : ∀ v, p = some v → ¬ 0 < v) (he : ∀ v, e = some v → ¬ 0 < v) :
    calculate_intrinsic_value_combine dv p e w = Except.ok dv := by
  have hne : w.dcf ≠ 0 := ne_of_gt hw
  rcases p with _ | vp <;> rcases e with _ | ve
  · simp [calculate_intrinsic_value_combine, optSlot, hd, hw, mul_div_assoc,
      div_self hne]
  · simp [calculate_intrinsic_value_combine, optSlot, hd, hw, he ve rfl,
      mul_div_assoc, div_self hne]
  · simp [calculate_intrinsic_value_combine, optSlot, hd, hw, hp vp rfl,
      mul_div_assoc, div_self hne]
  · simp [calculate_intrinsic_value_combine, optSlot, hd, hw, hp vp rfl, he ve rfl,
      mul_div_assoc, div_self hne]

/-- Claim C9 witness: the renormalization identity applied at a concrete
DCF-only input. -/
theorem dcf_only_renormalization_witness :
    calculate_intrinsic_value_combine 7 none (some 0) serviceWeights = Except.ok 7 :=
  dcf_only_renormalization 7 none (some 0) serviceWeights (by norm_num)
    (by norm_num [serviceWeights])
    (fun v hv => nomatch hv)
    (by intro v hv; injection hv with h; rw [← h]; norm_num)

/-- Claim C10: when at least one model qualifies (value present and positive)
and all three configured weights are positive, the combined intrinsic value is
a convex combination of the qualifying values: it lies within every interval
`[lo, hi]` containing all qualifying values. -/
theorem combiner_convex (dv : ℚ) (p e : Option ℚ) (w : CombinerWeights) (lo hi : ℚ)
    (hwd : 0 < w.dcf) (hwp : 0 < w.pe) (hwe : 0 < w.ev_ebitda)
    (hone : 0 < dv ∨ (∃ v, p = some v ∧ 0 < v) ∨ (∃ v, e = some v ∧ 0 < v))
    (hdlo : 0 < dv → lo ≤ dv) (hdhi : 0 < dv → dv ≤ hi)
    (hplo : ∀ v, p = some v → 0 < v → lo ≤ v) (hphi : ∀ v, p = some v → 0 < v → v ≤ hi)
    (helo : ∀ v, e = some v → 0 < v → lo ≤ v) (hehi : ∀ v, e = some v → 0 < v → v ≤ hi) :
    ∃ x, calculate_intrinsic_value_combine dv p e w = Except.ok x ∧ lo ≤ x ∧ x ≤ hi := by
  have slot1 : (if 0 < dv then (dv * w.dcf, w.dcf) else ((0:ℚ), (0:ℚ))) = (0, 0)
      ∨ 0 < dv ∧ (if 0 < dv then (dv * w.dcf, w.dcf) else ((0:ℚ), (0:ℚ)))
          = (dv * w.dcf, w.dcf) := by
    by_cases hd : 0 < dv
    · exact Or.inr ⟨hd, if_pos hd⟩
    · exact Or.inl (if_neg hd)
  obtain h1 | ⟨hd, h1⟩ := slot1 <;>
    obtain h2 | ⟨v2, hp2, hv2, h2⟩ := slot_cases p w.pe <;>
    obtain h3 | ⟨v3, he3, hv3, h3⟩ := slot_cases e w.ev_ebitda <;>
    rw [combine_eq, h1, h2, h3] <;>
    dsimp only
  · exfalso
    rcases hone with h | ⟨v, hp', hv⟩ | ⟨v, he', hv⟩
    · rw [if_pos h] at h1
      exact absurd (congrArg Prod.snd h1) (by dsimp only; exact ne_of_gt hwd)
    · rw [hp'] at h2
      simp [optSlot, hv] at h2
      exact absurd h2.2 (ne_of_gt hwp)
    · rw [he'] at h3
      simp [optSlot, hv] at h3
      exact absurd h3.2 (ne_of_gt hwe)
  · obtain ⟨hB, hlo, hhi⟩ := wavg_bounds 0 0 0 0 (v3 * w.ev_ebitda) w.ev_ebitda lo hi
      (Or.inl ⟨rfl, rfl⟩) (Or.inl ⟨rfl, rfl⟩)
      (Or.inr ⟨hwe, mul_le_mul_of_nonneg_right (helo v3 he3 hv3) hwe.le,
        mul_le_mul_of_nonneg_right (hehi v3 he3 hv3) hwe.le⟩)
      (Or.inr (Or.inr hwe))
    rw [if_pos hB]
    exact ⟨_, rfl, hlo, hhi⟩
  · obtain ⟨hB, hlo, hhi⟩ := wavg_bounds 0 0 (v2 * w.pe) w.pe 0 0 lo hi
      (Or.inl ⟨rfl, rfl⟩)
      (Or.inr ⟨hwp, mul_le_mul_of_nonneg_right (hplo v2 hp2 hv2) hwp.le,
        mul_le_mul_of_nonneg_right (hphi v2 hp2 hv2) hwp.le⟩)
      (Or.inl ⟨rfl, rfl⟩)
      (Or.inr (Or.inl hwp))
    rw [if_pos hB]
    exact ⟨_, rfl, hlo, hhi⟩
  · obtain ⟨hB, hlo, hhi⟩ := wavg_bounds 0 0 (v2 * w.pe) w.pe (v3 * w.ev_ebitda)
      w.ev_ebitda lo hi
      (Or.inl ⟨rfl, rfl⟩)
      (Or.inr ⟨hwp, mul_le_mul_of_nonneg_right (hplo v2 hp2 hv2) hwp.le,
        mul_le_mul_of_nonneg_right (hphi v2 hp2 hv2) hwp.le⟩)
      (Or.inr ⟨hwe, mul_le_mul_of_nonneg_right (helo v3 he3 hv3) hwe.le,
        mul_le_mul_of_nonneg_right (hehi v3 he3 hv3) hwe.le⟩)
      (Or.inr (Or.inl hwp))
    rw [if_pos hB]
    exact ⟨_, rfl, hlo, hhi⟩
  · obtain ⟨hB, hlo, hhi⟩ := wavg_bounds (dv * w.dcf) w.dcf 0 0 0 0 lo hi
      (Or.inr ⟨hwd, mul_le_mul_of_nonneg_right (hdlo hd) hwd.le,
        mul_le_mul_of_nonneg_right (hdhi hd) hwd.le⟩)
      (Or.inl ⟨rfl, rfl⟩) (Or.inl ⟨rfl, rfl⟩)
      (Or.inl hwd)
    rw [if_pos hB]
    exact ⟨_, rfl, hlo, hhi⟩
  · obtain ⟨hB, hlo, hhi⟩ := wavg_bounds (dv * w.dcf) w.dcf 0 0 (v3 * w.ev_ebitda)
      w.ev_ebitda lo hi
      (Or.inr ⟨hwd, mul_le_mul_of_nonneg_right (hdlo hd) hwd.le,
        mul_le_mul_of_nonneg_right (hdhi hd) hwd.le⟩)
      (Or.inl ⟨rfl, rfl⟩)
      (Or.inr ⟨hwe, mul_le_mul_of_nonneg_right (helo v3 he3 hv3) hwe.le,
        mul_le_mul_of_nonneg_right (hehi v3 he3 hv3) hwe.le⟩)
      (Or.inl hwd)
    rw [if_pos hB]
    exact ⟨_, rfl, hlo, hhi⟩
  · obtain ⟨hB, hlo, hhi⟩ := wavg_bounds (dv * w.dcf) w.dcf (v2 * w.pe) w.pe 0 0 lo hi
      (Or.inr ⟨hwd, mul_le_mul_of_nonneg_right (hdlo hd) hwd.le,
        mul_le_mul_of_nonneg_right (hdhi hd) hwd.le⟩)
      (Or.inr ⟨hwp, mul_le_mul_of_nonneg_right (hplo v2 hp2 hv2) hwp.le,
        mul_le_mul_of_nonneg_right (hphi v2 hp2 hv2) hwp.le⟩)
      (Or.inl ⟨rfl, rfl⟩)
      (Or.inl hwd)
    rw [if_pos hB]
    exact ⟨_, rfl, hlo, hhi⟩
  · obtain ⟨hB, hlo, hhi⟩ := wavg_bounds (dv * w.dcf) w.dcf (v2 * w.pe) w.pe
      (v3 * w.ev_ebitda) w.ev_ebitda lo hi
      (Or.inr ⟨hwd, mul_le_mul_of_nonneg_right (hdlo hd) hwd.le,
        mul_le_mul_of_nonneg_right (hdhi hd) hwd.le⟩)
      (Or.inr ⟨hwp, mul_le_mul_of_nonneg_right (hplo v2 hp2 hv2) hwp.le,
        mul_le_mul_of_nonneg_right (hphi v2 hp2 hv2) hwp.le⟩)
      (Or.inr ⟨hwe, mul_le_mul_of_nonneg_right (helo v3 he3 hv3) hwe.le,
        mul_le_mul_of_nonneg_right (hehi v3 he3 hv3) hwe.le⟩)
      (Or.inl hwd)
    rw [if_pos hB]
    exact ⟨_, rfl, hlo, hhi⟩

/-- Claim C10 witness: convexity applied at the concrete input with DCF value
10 and P/E value 20 under the service's default weights: the combined value
lies in [10, 20]. -/
theorem combiner_convex_witness :
    ∃ x, calculate_intrinsic_value_combine 10 (some 20) none serviceWeights
      = Except.ok x ∧ 10 ≤ x ∧ x ≤ 20 :=
  combiner_convex 10 (some 20) none serviceWeights 10 20
    (by norm_num [serviceWeights]) (by norm_num [serviceWeights])
    (by norm_num [serviceWeights])
    (Or.inl (by norm_num))
    (fun _ => by norm_num) (fun _ => by norm_num)
    (by intro v hv _; injection hv with h; rw [← h]; norm_num)
    (by intro v hv _; injection hv with h; rw [← h])
    (fun v hv => nomatch hv) (fun v hv => nomatch hv)

/-- Claim C6 counterexample: at `eps = 1`, `growthRate = 0.20`, no industry
P/E, default `peg = 1.0`, `years = 5`, `discount_rate = 0.10`, the fair value
returned by pe.py is `(1.2/1.1)^5 * 20`, not `eps * targetPE = 20` as the
claim states: pe.py projects EPS forward and discounts it back. -/
theorem pe_fair_value_counterexample :
    (PEBasedModel.calculate 1 (1/5) none 1 5 (1/10)).fair_value
      ≠ some (1 * claimedPETargetPE (1/5) none 1) := by
  have h : (PEBasedModel.calculate 1 (1/5) none 1 5 (1/10)).fair_value
      = some (4976640/161051) := by
    unfold PEBasedModel.calculate
    rw [if_neg (by norm_num)]
    dsimp only
    norm_num [min_def, max_def]
  rw [h]
  have hc : claimedPETargetPE (1/5) none 1 = 20 := by
    unfold claimedPETargetPE
    norm_num [min_def, max_def]
  rw [hc]
  norm_num

/-- Claim C6 amended: for `eps > 0` (with positive years and discount rate),
pe.py returns `fair_value = eps*(1+growthRate)^years * terminalPE /
(1+discountRate)^years`, where terminalPE is the industry P/E itself when
supplied and positive (it replaces, rather than being blended 70/30 with, the
calculated P/E), else `growthRate*100*peg` clamped to [5, 50]; for
`eps <= 0` the result is null. -/
theorem pe_fair_value_amended (eps g : ℚ) (ip : Option ℚ) (peg : ℚ)
    (years : ℕ) (dr : ℚ) :
    (0 < eps → years ≠ 0 → 0 < dr →
      (PEBasedModel.calculate eps g ip peg years dr).fair_value
        = some (eps * (1 + g) ^ years * peTerminalPE g ip peg / (1 + dr) ^ years)) ∧
    (eps ≤ 0 → (PEBasedModel.calculate eps g ip peg years dr).fair_value = none) := by
  constructor
  · intro he hy hd
    unfold PEBasedModel.calculate
    rw [if_neg (by push_neg; exact ⟨he, hy, hd⟩)]
    rcases ip with _ | v <;> rfl
  · intro he
    unfold PEBasedModel.calculate
    rw [if_pos (Or.inl he)]

/-- Claim C6 witness: the amended formula applied at the concrete input
`eps = 2`, `growthRate = 0.10`, no industry P/E, `peg = 1`, `years = 2`,
`discount_rate = 0.10`. -/
theorem pe_fair_value_amended_witness :
    (PEBasedModel.calculate 2 (1/10) none 1 2 (1/10)).fair_value
      = some (2 * (1 + 1/10) ^ 2 * peTerminalPE (1/10) none 1 / (1 + 1/10) ^ 2) :=
  (pe_fair_value_amended 2 (1/10) none 1 2 (1/10)).1 (by norm_num) (by norm_num)
    (by norm_num)

/-- Claim C7 counterexample: with `ebitda = 1`, zero growth, `net_debt = 100`
and one share, ev_ebitda.py returns `per_share_value = (6 - 100)/1 = -94 < 0`:
per-share values are not floored at 0. -/
theorem ev_negative_per_share :
    (EVEBITDAModel.calculate 1 0 none 100 1).per_share_value < 0 := by
  unfold EVEBITDAModel.calculate
  rw [if_neg (by norm_num)]
  dsimp only
  norm_num [min_def, max_def]

/-- Claim C7 amended: the models apply no floor at 0: the per-share value is
`(enterpriseValue - netDebt)/sharesOutstanding` and is negative whenever
netDebt exceeds the computed enterprise value; it is nonnegative whenever
netDebt does not, and invalid inputs (`ebitda <= 0` or `shares <= 0`) yield
the sentinel 0. -/
theorem ev_per_share_nonneg_amended (eb g : ℚ) (im : Option ℚ) (nd sh : ℚ)
    (h1 : nd ≤ (EVEBITDAModel.calculate eb g im nd sh).enterprise_value)
    (h2 : 0 ≤ sh) :
    0 ≤ (EVEBITDAModel.calculate eb g im nd sh).per_share_value := by
  unfold EVEBITDAModel.calculate at h1 ⊢
  by_cases hcond : eb ≤ 0 ∨ sh ≤ 0
  · rw [if_pos hcond]
  · rw [if_neg hcond] at h1 ⊢
    dsimp only at h1 ⊢
    exact div_nonneg (by linarith) h2

/-- Claim C7 witness: the amended nonnegativity applied at the concrete input
`ebitda = 1`, zero growth, `net_debt = 0`, one share. -/
theorem ev_per_share_nonneg_witness :
    0 ≤ (EVEBITDAModel.calculate 1 0 none 0 1).per_share_value :=
  ev_per_share_nonneg_amended 1 0 none 0 1
    (by unfold EVEBITDAModel.calculate
        rw [if_neg (by norm_num)]
        dsimp only
        norm_num [min_def, max_def])
    (by norm_num)

end HopperValuation
